/-
Verification of the Catalog Identity Resolution & Synchronization Engine
(motherload_projet).  Shallow embedding of the relevant parts of
`motherload_projet/catalogs/scoring.py` and
`legacy/motherload_projet/catalogs/scanner.py` into Lean, followed by
theorems settling the specification claims.

Strings are modelled by Lean `String`; Python's `str.strip()` /
`str.lower()` / substring tests are re-implemented structurally over
`List Char` so that all definitions reduce in the kernel.
-/
import Mathlib

namespace Motherload

/-! ### Python-style string primitives -/

/-- Python `str.strip()` on a character list: drop whitespace on both ends. -/
def trimList (cs : List Char) : List Char :=
  ((cs.dropWhile Char.isWhitespace).reverse.dropWhile Char.isWhitespace).reverse

/-- Python `str.strip()`. -/
def pyStrip (s : String) : String :=
  String.mk (trimList s.toList)

/-- Python `str.lower()` (ASCII case folding, which covers all inputs here). -/
def pyLower (s : String) : String :=
  String.mk (s.toList.map Char.toLower)

/-- `leadsWith pat cs` is true when `pat` is an initial segment of `cs`. -/
def leadsWith : List Char → List Char → Bool
  | [], _ => true
  | _ :: _, [] => false
  | p :: ps, c :: cs => (p == c) && leadsWith ps cs

/-- `containsSub hay pat`: Python's `pat in hay` substring test. -/
def containsSub (hay pat : List Char) : Bool :=
  match hay with
  | [] => pat.isEmpty
  | _ :: t => leadsWith pat hay || containsSub t pat

/-- Python `pat in hay` on strings. -/
def containsStr (hay pat : String) : Bool :=
  containsSub hay.toList pat.toList

/-- `beforeFirst cs sep`: Python `cs.split(sep, 1)[0]`, the text before the
first occurrence of `sep` (the whole list when `sep` does not occur). -/
def beforeFirst (cs sep : List Char) : List Char :=
  match cs with
  | [] => []
  | c :: t => if leadsWith sep (c :: t) then [] else c :: beforeFirst t sep

/-- Helper for `wsSplit`: accumulates the current word (reversed). -/
def wsSplitAux : List Char → List Char → List (List Char)
  | [], acc => if acc.isEmpty then [] else [acc.reverse]
  | c :: t, acc =>
    if c.isWhitespace then
      if acc.isEmpty then wsSplitAux t [] else acc.reverse :: wsSplitAux t []
    else wsSplitAux t (c :: acc)

/-- Python `str.split()` with no argument: split on whitespace runs,
dropping empty pieces. -/
def wsSplit (cs : List Char) : List (List Char) :=
  wsSplitAux cs []

/-- Join word lists with single spaces.  `joinSpace (wsSplit cs)` is
`re.sub(r"\s+", " ", cs)` for an already stripped `cs`. -/
def joinSpace : List (List Char) → List Char
  | [] => []
  | [w] => w
  | w :: rest => w ++ ' ' :: joinSpace rest

/-! ### `catalogs/scoring.py` -/

/-- `normalize_text` (scoring.py): strip, lowercase, collapse whitespace
runs to single spaces, keep only `[a-z0-9 ]`, strip again. -/
def normalize_text (value : String) : String :=
  let cs := (trimList value.toList).map Char.toLower
  let cs := joinSpace (wsSplit cs)
  let cs := cs.filter fun c =>
    decide (('a' ≤ c ∧ c ≤ 'z') ∨ ('0' ≤ c ∧ c ≤ '9') ∨ c = ' ')
  String.mk (trimList cs)

/-- `first_author_last` (scoring.py): first author (split on `;` or
`" and "`), then the surname (before a comma, or the last
whitespace-separated token); `"Unknown"` for an empty author field. -/
def first_author_last (authors : String) : String :=
  if authors = "" then "Unknown"
  else
    let text := authors.toList
    let first :=
      if containsSub text [';'] then beforeFirst text [';']
      else if containsSub text [' ', 'a', 'n', 'd', ' '] then
        beforeFirst text [' ', 'a', 'n', 'd', ' ']
      else text
    let first := trimList first
    if first.isEmpty then "Unknown"
    else if containsSub first [','] then
      let last := trimList (beforeFirst first [','])
      if last.isEmpty then "Unknown" else String.mk last
    else
      match (wsSplit first).getLast? with
      | none => "Unknown"
      | some p => String.mk p

/-- `fingerprint` (scoring.py): `normalized title|first-author surname|year`,
or `""` when all three normalized components are empty. -/
def fingerprint (title authors year : String) : String :=
  let title_norm := normalize_text title
  let author_last := normalize_text (first_author_last authors)
  let year_norm := normalize_text year
  if title_norm = "" ∧ author_last = "" ∧ year_norm = "" then ""
  else title_norm ++ "|" ++ author_last ++ "|" ++ year_norm

/-- `primary_id` (scoring.py): first non-empty identity signal, in the
order doi > isbn > fingerprint > file hash. -/
def primary_id (doi isbn fp pdf_hash : String) : String :=
  if doi ≠ "" then "doi:" ++ pyLower (pyStrip doi)
  else if isbn ≠ "" then "isbn:" ++ pyStrip isbn
  else if fp ≠ "" then "fp:" ++ pyStrip fp
  else if pdf_hash ≠ "" then "hash:" ++ pyStrip pdf_hash
  else ""

/-- `CompletenessConfig` (scoring.py). -/
structure CompletenessConfig where
  require_common_fields : List String := ["title", "authors", "year"]
  article_requires_doi_or_venue : Bool := true
  book_requires_isbn_or_url : Bool := true

/-- A record/entry is modelled as a total map from field name to string
value; absent fields read as `""` (Python `entry.get(name, "")`). -/
def Entry : Type := String → String

/-- `_has_all` (scoring.py): each listed field is non-blank. -/
def hasAllFields (entry : Entry) (fields : List String) : Bool :=
  fields.all fun name => decide (pyStrip (entry name) ≠ "")

/-- `is_article_complete` (scoring.py): common fields, then DOI, then the
`journal or venue` / volume / issue / pages block (all values stripped). -/
def is_article_complete (entry : Entry) (cfg : CompletenessConfig) : Bool :=
  if !hasAllFields entry cfg.require_common_fields then false
  else if pyStrip (entry "doi") ≠ "" then true
  else if !cfg.article_requires_doi_or_venue then true
  else
    decide ((if pyStrip (entry "journal") ≠ "" then pyStrip (entry "journal")
        else pyStrip (entry "venue")) ≠ "" ∧
      pyStrip (entry "volume") ≠ "" ∧ pyStrip (entry "issue") ≠ "" ∧
      pyStrip (entry "pages") ≠ "")

/-- `is_book_complete` (scoring.py): common fields, then ISBN or URL
(all values stripped). -/
def is_book_complete (entry : Entry) (cfg : CompletenessConfig) : Bool :=
  if !hasAllFields entry cfg.require_common_fields then false
  else if cfg.book_requires_isbn_or_url then
    decide (pyStrip (entry "isbn") ≠ "" ∨ pyStrip (entry "url") ≠ "")
  else true

/-- `is_complete` (scoring.py): dispatch on the stripped, lowercased
`type` field. -/
def is_complete (entry : Entry) (cfg : CompletenessConfig) : Bool :=
  if pyLower (pyStrip (entry "type")) = "book" then is_book_complete entry cfg
  else if pyLower (pyStrip (entry "type")) = "article" then
    is_article_complete entry cfg
  else false

/-! ### `legacy/.../catalogs/scanner.py` — enrichment pipeline pieces -/

/-- `_guess_doc_type` (scanner.py): ISBN ⇒ book, DOI ⇒ article, otherwise a
keyword heuristic over the lowercased extracted text, and `"unknown"` only
when nothing matches.  Empty strings model Python `None`/`""` falsiness. -/
def guess_doc_type (doi isbn text : String) : String :=
  if isbn ≠ "" then "book"
  else if doi ≠ "" then "article"
  else
    let lower := pyLower text
    if ["book", "livre", "ouvrage"].any (fun w => containsStr lower w) then "book"
    else if ["article", "journal", "revue", "paper"].any (fun w => containsStr lower w) then
      "article"
    else "unknown"

/-- The final `type` adjustment at the end of `_process_pdf` (scanner.py):
`if entry.get("isbn"): type = "book" elif entry.get("doi"): type = "article"`,
else the previously guessed type is kept. -/
def adjust_type (isbn doi guessed : String) : String :=
  if isbn ≠ "" then "book"
  else if doi ≠ "" then "article"
  else guessed

/-- The fields of a row read by `_is_preprint` / `_resolve_version`. -/
structure VEntry where
  journal : String
  venue : String
  doi : String
  url : String
deriving DecidableEq, Repr

/-- `_is_preprint` (scanner.py): joins the `journal`, `venue` and `doi`
fields (only those three) with spaces, lowercases, and looks for a known
preprint-host marker as a substring. -/
def is_preprint (e : VEntry) : Bool :=
  let text := pyLower (e.journal ++ " " ++ e.venue ++ " " ++ e.doi)
  ["arxiv", "biorxiv", "medrxiv", "preprint"].any fun tag => containsStr text tag

/-- `_resolve_version` (scanner.py). -/
def resolve_version (e : VEntry) : String :=
  if is_preprint e then "preprint"
  else if e.doi ≠ "" then "final"
  else ""

/-! ### `_merge_fields` and the merge step of `scan_library` -/

/-- Python `source.get(k)` for a dict given as a key/value list
(keys are unique in a dict; the first match is returned). -/
def dictGet (source : List (String × String)) (k : String) : String :=
  match source with
  | [] => ""
  | (k', v) :: rest => if k' = k then v else dictGet rest k

/-- One iteration of the `_merge_fields` loop (scanner.py): write the raw
source value into the target only when the source value is non-blank and
the target's current value is blank. -/
def mergeStep (target : Entry) (k v : String) : Entry :=
  if pyStrip v ≠ "" ∧ pyStrip (target k) = "" then
    fun x => if x = k then v else target x
  else target

/-- `_merge_fields` (scanner.py): fold `mergeStep` over the source items in
order. -/
def mergeFields (target : Entry) (source : List (String × String)) : Entry :=
  match source with
  | [] => target
  | (k, v) :: rest => mergeFields (mergeStep target k v) rest

/-- The matched-row merge step of `scan_library` (scanner.py, the
`match_idx is not None` branch): fill-only merge of the candidate entry into
the current row, then the documented `type` exception — `type` is replaced by
the candidate's `type` only when the merged value is `""` or `"unknown"`. -/
def mergeCandidate (current : Entry) (entry : List (String × String)) : Entry :=
  if (mergeFields current entry "type" = "" ∨ mergeFields current entry "type" = "unknown")
      ∧ dictGet entry "type" ≠ "" then
    fun x => if x = "type" then dictGet entry "type" else mergeFields current entry x
  else mergeFields current entry

/-! ### `_fill_identifiers` (scanner.py) -/

/-- The fields of a row read or written by `_fill_identifiers`. -/
structure FRow where
  title : String
  authors : String
  year : String
  doi : String
  isbn : String
  file_hash : String
  fingerprint : String
  primary_id : String
deriving DecidableEq, Repr

/-- One iteration of `_fill_identifiers`: compute `fingerprint` when blank,
then compute `primary_id` from the (possibly updated) fingerprint when
blank. -/
def fillRow (r : FRow) : FRow :=
  let fp :=
    if pyStrip r.fingerprint = "" then fingerprint r.title r.authors r.year
    else r.fingerprint
  let pid :=
    if pyStrip r.primary_id = "" then primary_id r.doi r.isbn fp r.file_hash
    else r.primary_id
  { r with fingerprint := fp, primary_id := pid }

/-- `_fill_identifiers` (scanner.py): the back-fill pass over the table.
Each row is handled independently, in order. -/
def fill_identifiers (rows : List FRow) : List FRow :=
  rows.map fillRow

/-! ### `_MetadataCache._load` (scanner.py) -/

/-- A Python/JSON value, as produced by `json.loads`. -/
inductive PyJson where
  | obj : List (String × PyJson) → PyJson
  | arr : List PyJson → PyJson
  | str : String → PyJson
  | num : Int → PyJson
  | boolean : Bool → PyJson
  | null : PyJson

/-- The initial cache contents set in `_MetadataCache.__init__`. -/
def emptyCacheData : List (String × PyJson) :=
  [("crossref", PyJson.obj []), ("semantic", PyJson.obj []),
   ("crossref_search", PyJson.obj []), ("semantic_search", PyJson.obj [])]

/-- Python `dict.setdefault(key, {})` on a key/value list: appends the key
with an empty dict at the end when absent. -/
def setdefaultKey (kvs : List (String × PyJson)) (key : String) :
    List (String × PyJson) :=
  if (kvs.lookup key).isSome then kvs else kvs ++ [(key, PyJson.obj [])]

/-- `_MetadataCache._load` (scanner.py).  The snapshot state is
`none` when the file is missing, `some none` when reading/parsing raises
(caught by the `except Exception` branch), and `some (some j)` when
`json.loads` returns the value `j`.  The `else:` branch runs
`self.data.setdefault(...)` outside the `try`, so a parsed value that is not
a dict raises `AttributeError`, modelled as `Except.error`. -/
def cacheLoad : Option (Option PyJson) → Except String (List (String × PyJson))
  | none => Except.ok emptyCacheData
  | some none => Except.ok emptyCacheData
  | some (some (PyJson.obj kvs)) =>
    Except.ok (setdefaultKey (setdefaultKey (setdefaultKey (setdefaultKey
      kvs "crossref") "semantic") "crossref_search") "semantic_search")
  | some (some _) => Except.error "AttributeError"

/-! ### `_apply_preprint_replacements` (scanner.py) -/

/-- The fields of a row read or written by `_apply_preprint_replacements`
(after `_ensure_columns` all four are present). -/
structure PRow where
  fingerprint : String
  version : String
  primary_id : String
  replaced_by : String
deriving DecidableEq, Repr

/-- Pair each row with its position, like `df.iterrows()` starting at `n`. -/
def withIdx : Nat → List PRow → List (Nat × PRow)
  | _, [] => []
  | n, r :: rest => (n, r) :: withIdx (n + 1) rest

/-- `groups.setdefault(fp, []).append(item)`: append the item to the group
for `fp`, creating the group at the end when absent. -/
def insertGrp (gs : List (String × List (Nat × PRow))) (fp : String)
    (item : Nat × PRow) : List (String × List (Nat × PRow)) :=
  match gs with
  | [] => [(fp, [item])]
  | (k, items) :: rest =>
    if k = fp then (k, items ++ [item]) :: rest
    else (k, items) :: insertGrp rest fp item

/-- One step of the grouping loop of `_apply_preprint_replacements`: rows
with a blank (stripped) fingerprint are skipped, the rest join the group of
their stripped fingerprint. -/
def grpStep (gs : List (String × List (Nat × PRow))) (p : Nat × PRow) :
    List (String × List (Nat × PRow)) :=
  if pyStrip p.2.fingerprint = "" then gs
  else insertGrp gs (pyStrip p.2.fingerprint) p

/-- The grouping loop of `_apply_preprint_replacements`: group the rows by
stripped fingerprint, in row order. -/
def buildGroups (rows : List PRow) : List (String × List (Nat × PRow)) :=
  (withIdx 0 rows).foldl grpStep []

/-- Python `groups.get(k)` on the association list of groups. -/
def lookupGrp : List (String × List (Nat × PRow)) → String →
    Option (List (Nat × PRow))
  | [], _ => none
  | (k', items) :: rest, k => if k' = k then some items else lookupGrp rest k

/-- `df.at[i, "replaced_by"] = v` on a row list (no effect out of range). -/
def setReplaced (rows : List PRow) (i : Nat) (v : String) : List PRow :=
  match rows.get? i with
  | some r => rows.set i { r with replaced_by := v }
  | none => rows

/-- The per-group update of `_apply_preprint_replacements`: when the group
has both a `final` and a `preprint` row, every preprint row's `replaced_by`
is set to the stripped `primary_id` of the first final row. -/
def applyGroup (rows : List PRow) (items : List (Nat × PRow)) : List PRow :=
  match (items.filter fun it => it.2.version = "final").head? with
  | none => rows
  | some f =>
    if (items.filter fun it => it.2.version = "preprint").isEmpty then rows
    else (items.filter fun it => it.2.version = "preprint").foldl
      (fun acc it => setReplaced acc it.1 (pyStrip f.2.primary_id)) rows

/-- `_apply_preprint_replacements` (scanner.py): group rows by non-blank
fingerprint, then apply the per-group preprint/final update to the table. -/
def applyPreprintReplacements (rows : List PRow) : List PRow :=
  (buildGroups rows).foldl (fun acc g => applyGroup acc g.2) rows

/-- Claim-side view: the fingerprint group of a table, in row order. -/
def groupOf (rows : List PRow) (fp : String) : List PRow :=
  rows.filter fun r => pyStrip r.fingerprint = fp

/-- Claim-side view: the first `final` row of a fingerprint group. -/
def firstFinal (rows : List PRow) (fp : String) : Option PRow :=
  ((groupOf rows fp).filter fun r => r.version = "final").head?

/-! ### `_build_index` / `_find_match` (scanner.py) -/

/-- The identity fields consulted by `_build_index` and `_find_match`. -/
structure IdRow where
  doi : String
  isbn : String
  fingerprint : String
  file_hash : String
deriving DecidableEq, Repr

/-- The four identity indexes, in lookup priority order. -/
inductive IdKind where
  | doi
  | isbn
  | fp
  | fh
deriving DecidableEq, Repr, Fintype

/-- Lookup priority of a key kind (`_find_match` checks in this order). -/
def IdKind.rank : IdKind → Nat
  | .doi => 0
  | .isbn => 1
  | .fp => 2
  | .fh => 3

/-- The normalized key a row contributes to each index: doi is stripped and
lowercased, the others are stripped — identically in `_build_index`,
`_find_match` and `_update_index`. -/
def keyOf : IdKind → IdRow → String
  | .doi, r => pyLower (pyStrip r.doi)
  | .isbn, r => pyStrip r.isbn
  | .fp, r => pyStrip r.fingerprint
  | .fh, r => pyStrip r.file_hash

/-- Python `index[kind].get(k)` on an association list (keys unique). -/
def lookupIdx : List (String × Nat) → String → Option Nat
  | [], _ => none
  | (k', v) :: rest, k => if k' = k then some v else lookupIdx rest k

/-- `index[kind].setdefault(k, i)`: record position `i` for key `k` only
when the key is not present yet. -/
def setdefaultIdx (m : List (String × Nat)) (k : String) (i : Nat) :
    List (String × Nat) :=
  if (lookupIdx m k).isSome then m else m ++ [(k, i)]

/-- One row's contribution to the four indexes in `_build_index`
(blank keys are skipped). -/
def insKeys (idx : IdKind → List (String × Nat)) (i : Nat) (r : IdRow) :
    IdKind → List (String × Nat) :=
  fun κ => if keyOf κ r = "" then idx κ else setdefaultIdx (idx κ) (keyOf κ r) i

/-- Position pairing for `IdRow` tables (`df.iterrows()`). -/
def withIdxI : Nat → List IdRow → List (Nat × IdRow)
  | _, [] => []
  | n, r :: rest => (n, r) :: withIdxI (n + 1) rest

/-- `_build_index` (scanner.py): fold the table rows, in order, into the
four `setdefault`-maintained indexes. -/
def buildIndex (rows : List IdRow) : IdKind → List (String × Nat) :=
  (withIdxI 0 rows).foldl (fun idx p => insKeys idx p.1 p.2) fun _ => []

/-- `_find_match` (scanner.py): return the first hit among the doi, isbn,
fingerprint and file-hash indexes, in that order; `none` means new record. -/
def findMatch (e : IdRow) (idx : IdKind → List (String × Nat)) : Option Nat :=
  if keyOf .doi e ≠ "" ∧ (lookupIdx (idx .doi) (keyOf .doi e)).isSome then
    lookupIdx (idx .doi) (keyOf .doi e)
  else if keyOf .isbn e ≠ "" ∧ (lookupIdx (idx .isbn) (keyOf .isbn e)).isSome then
    lookupIdx (idx .isbn) (keyOf .isbn e)
  else if keyOf .fp e ≠ "" ∧ (lookupIdx (idx .fp) (keyOf .fp e)).isSome then
    lookupIdx (idx .fp) (keyOf .fp e)
  else if keyOf .fh e ≠ "" ∧ (lookupIdx (idx .fh) (keyOf .fh e)).isSome then
    lookupIdx (idx .fh) (keyOf .fh e)
  else none

/-- Claim-side view: the position of the earliest row carrying key `k` in
kind `κ`, starting the count at `n`. -/
def firstIdxFrom (κ : IdKind) (k : String) : Nat → List IdRow → Option Nat
  | _, [] => none
  | n, r :: rest => if keyOf κ r = k then some n else firstIdxFrom κ k (n + 1) rest

/-! ### Claim-side auxiliary definitions -/

/-- The default `CompletenessConfig()` used by `scan_library`. -/
def defaultCfg : CompletenessConfig := {}

/-- Claim-side view: the book-keyword heuristic of `_guess_doc_type`. -/
def bookKeyword (text : String) : Bool :=
  ["book", "livre", "ouvrage"].any fun w => containsStr (pyLower text) w

/-- Claim-side view: the article-keyword heuristic of `_guess_doc_type`. -/
def articleKeyword (text : String) : Bool :=
  ["article", "journal", "revue", "paper"].any fun w => containsStr (pyLower text) w

/-- `primaryId` as worded by the claim (no whitespace stripping): first
non-empty of `doi`/`isbn`/`fingerprint`/`fileHash`, prefixed, with only the
doi lowercased. -/
def primaryIdClaim (doi isbn fp fileHash : String) : String :=
  if doi ≠ "" then "doi:" ++ pyLower doi
  else if isbn ≠ "" then "isbn:" ++ isbn
  else if fp ≠ "" then "fp:" ++ fp
  else if fileHash ≠ "" then "hash:" ++ fileHash
  else ""

/-! ### Generic helper lemmas -/

theorem string_append_ne_empty (p s : String) (hp : p.data ≠ []) : p ++ s ≠ "" := by
  obtain ⟨d1⟩ := p
  obtain ⟨d2⟩ := s
  intro he
  have : d1 ++ d2 = [] := congrArg String.data he
  rcases List.append_eq_nil.mp this with ⟨h1, _⟩
  exact hp (by simpa using h1)

theorem pyStrip_empty : pyStrip "" = "" := rfl

theorem stringData_append (s t : String) : (s ++ t).data = s.data ++ t.data := by
  obtain ⟨d1⟩ := s
  obtain ⟨d2⟩ := t
  rfl

/-- A pipe-joined triple is never the empty string, whatever its parts. -/
theorem pipe_append_ne_empty (a b c : String) : a ++ "|" ++ b ++ "|" ++ c ≠ "" := by
  intro h
  have hd := congrArg String.data h
  simp only [stringData_append] at hd
  simp at hd

/-- `primary_id` is non-empty as soon as its fingerprint argument is. -/
theorem primary_id_ne_empty_of_fp (d i f h : String) (hf : f ≠ "") :
    primary_id d i f h ≠ "" := by
  unfold primary_id
  split_ifs
  · exact string_append_ne_empty "doi:" _ (by decide)
  · exact string_append_ne_empty "isbn:" _ (by decide)
  · exact string_append_ne_empty "fp:" _ (by decide)

/-- A non-blank target field is never overwritten by `mergeStep`. -/
theorem mergeStep_keeps (target : Entry) (k v f : String)
    (h : pyStrip (target f) ≠ "") : mergeStep target k v f = target f := by
  unfold mergeStep
  split_ifs with hc
  · have hfk : ¬ f = k := fun he => h (by rw [he]; exact hc.2)
    show (if f = k then v else target f) = target f
    rw [if_neg hfk]
  · rfl

/-- A non-blank target field is never overwritten by `_merge_fields`. -/
theorem mergeFields_keeps (target : Entry) (source : List (String × String))
    (f : String) (h : pyStrip (target f) ≠ "") :
    mergeFields target source f = target f := by
  induction source generalizing target with
  | nil => rfl
  | cons p rest ih =>
    obtain ⟨k, v⟩ := p
    show mergeFields (mergeStep target k v) rest f = target f
    rw [ih (mergeStep target k v) (by rw [mergeStep_keeps target k v f h]; exact h)]
    exact mergeStep_keeps target k v f h

/-! ### C1 — merge is fill-only -/

/-- C1: the matched-row merge of the Catalog Merge Engine is fill-only —
every field other than `type` and `last_seen_run` whose existing value is
non-blank is unchanged by merging any candidate. -/
theorem merge_is_fill_only (current : Entry) (entry : List (String × String))
    (f : String) (h1 : f ≠ "type") (h2 : f ≠ "last_seen_run")
    (h : pyStrip (current f) ≠ "") :
    mergeCandidate current entry f = current f := by
  unfold mergeCandidate
  split_ifs with hc
  · show (if f = "type" then dictGet entry "type" else mergeFields current entry f)
      = current f
    rw [if_neg h1]
    exact mergeFields_keeps current entry f h
  · exact mergeFields_keeps current entry f h

/-- Sample existing row for the C1 witness. -/
def c1Current : Entry := fun k =>
  if k = "title" then "Known Title" else if k = "type" then "unknown" else ""

/-- Sample candidate entry for the C1 witness. -/
def c1Entry : List (String × String) :=
  [("title", "Other Title"), ("year", "2020"), ("type", "article")]

/-- C1 witness: a concrete non-blank `title` survives a merge with a
conflicting candidate. -/
theorem merge_is_fill_only_witness :
    pyStrip (c1Current "title") ≠ "" ∧
      mergeCandidate c1Current c1Entry "title" = c1Current "title" :=
  ⟨by decide, merge_is_fill_only c1Current c1Entry "title" (by decide) (by decide)
    (by decide)⟩

/-! ### C3 — document type classification -/

/-- C3 counterexample: with no ISBN and no DOI the emitted type is not
always `"unknown"` — the keyword heuristic classifies text containing
`"book"` as a book. -/
theorem doc_type_claim_cex :
    adjust_type "" "" (guess_doc_type "" "" "a book of examples") = "book" ∧
      adjust_type "" "" (guess_doc_type "" "" "a book of examples") ≠ "unknown" := by
  decide

/-- C3 (amended): the emitted candidate `type` is `book` when an ISBN was
found, else `article` when a DOI was found, else it falls back to the
keyword heuristics of `_guess_doc_type` over the extracted text, and is
`unknown` only when no identifier and no keyword is present. -/
theorem doc_type_classification (doi isbn text : String) :
    (isbn ≠ "" → adjust_type isbn doi (guess_doc_type doi isbn text) = "book") ∧
    (isbn = "" → doi ≠ "" →
      adjust_type isbn doi (guess_doc_type doi isbn text) = "article") ∧
    (isbn = "" → doi = "" → bookKeyword text = true →
      adjust_type isbn doi (guess_doc_type doi isbn text) = "book") ∧
    (isbn = "" → doi = "" → bookKeyword text = false → articleKeyword text = true →
      adjust_type isbn doi (guess_doc_type doi isbn text) = "article") ∧
    (isbn = "" → doi = "" → bookKeyword text = false → articleKeyword text = false →
      adjust_type isbn doi (guess_doc_type doi isbn text) = "unknown") := by
  refine ⟨fun hi => ?_, fun hi hd => ?_, fun hi hd hb => ?_, fun hi hd hb ha => ?_,
    fun hi hd hb ha => ?_⟩ <;>
    simp_all [adjust_type, guess_doc_type, bookKeyword, articleKeyword]

/-- C3 witness: concrete inputs exercising the amended classification. -/
theorem doc_type_classification_witness :
    ("" : String) = "" ∧ bookKeyword "plain words" = false ∧
      articleKeyword "plain words" = false ∧
      adjust_type "" "" (guess_doc_type "" "" "plain words") = "unknown" :=
  ⟨rfl, by decide, by decide,
    (doc_type_classification "" "" "plain words").2.2.2.2 rfl rfl (by decide) (by decide)⟩

/-! ### C4 — version derivation -/

/-- C4 counterexample: a row whose `url` alone carries a preprint marker is
not classified `preprint` — `_is_preprint` never consults `url`, so with an
empty DOI the derived version is `""`. -/
theorem version_claim_url_cex :
    containsStr (pyLower "https://arxiv.org/abs/2101.00001") "arxiv" = true ∧
      resolve_version
        { journal := "", venue := "", doi := "",
          url := "https://arxiv.org/abs/2101.00001" } = "" ∧
      resolve_version
        { journal := "", venue := "", doi := "",
          url := "https://arxiv.org/abs/2101.00001" } ≠ "preprint" := by
  decide

/-- C4 (amended): the derived `version` is `preprint` when the
journal/venue/doi text (the `url` is not consulted) contains a preprint
marker, `final` when the row has a non-empty DOI and is not flagged
preprint, and `""` otherwise; the outcome is independent of `url`. -/
theorem version_resolution (e : VEntry) :
    (is_preprint e = true → resolve_version e = "preprint") ∧
    (is_preprint e = false → e.doi ≠ "" → resolve_version e = "final") ∧
    (is_preprint e = false → e.doi = "" → resolve_version e = "") ∧
    is_preprint { journal := e.journal, venue := e.venue, doi := e.doi, url := "" }
      = is_preprint e := by
  refine ⟨fun hp => ?_, fun hp hd => ?_, fun hp hd => ?_, rfl⟩ <;>
    simp_all [resolve_version]

/-- C4 witness: an `arXiv` journal marker yields version `preprint`. -/
theorem version_resolution_witness :
    is_preprint { journal := "arXiv", venue := "", doi := "", url := "" } = true ∧
      resolve_version { journal := "arXiv", venue := "", doi := "", url := "" }
        = "preprint" :=
  ⟨by decide,
    (version_resolution { journal := "arXiv", venue := "", doi := "", url := "" }).1
      (by decide)⟩

/-! ### C5 — fingerprint emptiness -/

/-- C5 counterexample: `fingerprint("", "", "")` is `"|unknown|"`, not
`""` — the empty author field becomes the `"Unknown"` placeholder, which
survives normalization. -/
theorem fingerprint_empty_claim_cex :
    fingerprint "" "" "" = "|unknown|" ∧ fingerprint "" "" "" ≠ "" := by
  decide

/-- C5 (amended): `fingerprint` returns `""` exactly when all three
normalized components — title, first-author surname, year — are empty; for
all-empty inputs it instead returns `"|unknown|"` via the `"Unknown"`
author placeholder. -/
theorem fingerprint_blank_characterization :
    (∀ t a y, fingerprint t a y = "" ↔
      (normalize_text t = "" ∧ normalize_text (first_author_last a) = "" ∧
        normalize_text y = "")) ∧
      fingerprint "" "" "" = "|unknown|" := by
  constructor
  · intro t a y
    constructor
    · intro h
      by_contra hc
      have hne : fingerprint t a y = normalize_text t ++ "|" ++
          normalize_text (first_author_last a) ++ "|" ++ normalize_text y := by
        simp [fingerprint, hc]
      rw [hne] at h
      exact pipe_append_ne_empty _ _ _ h
    · intro hc
      simp [fingerprint, hc.1, hc.2.1, hc.2.2]
  · decide

/-- C5 witness: authors `"!!!"` normalize to nothing, so the fingerprint is
empty. -/
theorem fingerprint_blank_witness :
    normalize_text "" = "" ∧ normalize_text (first_author_last "!!!") = "" ∧
      fingerprint "" "!!!" "" = "" :=
  ⟨rfl, by decide,
    (fingerprint_blank_characterization.1 "" "!!!" "").mpr
      ⟨by decide, by decide, by decide⟩⟩

/-! ### C6 — back-fill of identifiers -/

/-- A row whose authors normalize to nothing and that carries no other
identity signal. -/
def c6BadRow : FRow :=
  { title := "", authors := "!!!", year := "", doi := "", isbn := "",
    file_hash := "", fingerprint := "", primary_id := "" }

/-- C6 counterexample: after `_fill_identifiers`, the degenerate row keeps
an empty `fingerprint` and an empty `primary_id`. -/
theorem backfill_claim_cex :
    ((fill_identifiers [c6BadRow]).get? 0).map FRow.fingerprint = some "" ∧
      ((fill_identifiers [c6BadRow]).get? 0).map FRow.primary_id = some "" := by
  decide

/-- C6 (amended): the back-fill pass gives every row whose recomputed
fingerprint is non-empty (in particular every row whose title, authors or
year normalizes to something, including all rows with an empty author
field) a non-empty `fingerprint` and a non-empty `primary_id`. -/
theorem backfill_populates_identifiers (rows : List FRow) (i : Nat) (r : FRow)
    (hget : rows.get? i = some r)
    (hfp : fingerprint r.title r.authors r.year ≠ "") :
    ∃ r', (fill_identifiers rows).get? i = some r' ∧
      r'.fingerprint ≠ "" ∧ r'.primary_id ≠ "" := by
  refine ⟨fillRow r, ?_, ?_, ?_⟩
  · show (rows.map fillRow).get? i = some (fillRow r)
    rw [List.get?_map, hget]
    rfl
  · show (if pyStrip r.fingerprint = "" then fingerprint r.title r.authors r.year
      else r.fingerprint) ≠ ""
    by_cases hb : pyStrip r.fingerprint = ""
    · simpa [hb] using hfp
    · simp only [hb, if_neg, if_false]
      intro he
      exact hb (by rw [he]; rfl)
  · show (if pyStrip r.primary_id = "" then
        primary_id r.doi r.isbn
          (if pyStrip r.fingerprint = "" then fingerprint r.title r.authors r.year
            else r.fingerprint) r.file_hash
      else r.primary_id) ≠ ""
    by_cases hb : pyStrip r.primary_id = ""
    · simp only [hb, if_pos]
      apply primary_id_ne_empty_of_fp
      by_cases hf : pyStrip r.fingerprint = ""
      · simpa [hf] using hfp
      · simp only [hf, if_neg, if_false]
        intro he
        exact hf (by rw [he]; rfl)
    · simp only [hb, if_neg, if_false]
      intro he
      exact hb (by rw [he]; rfl)

/-- Ordinary row for the C6 witness. -/
def c6GoodRow : FRow :=
  { title := "A Title", authors := "Smith, J.", year := "2020", doi := "",
    isbn := "", file_hash := "", fingerprint := "", primary_id := "" }

/-- C6 witness: a normal row gets both identifiers back-filled. -/
theorem backfill_populates_identifiers_witness :
    [c6GoodRow].get? 0 = some c6GoodRow ∧
      fingerprint c6GoodRow.title c6GoodRow.authors c6GoodRow.year ≠ "" ∧
      ∃ r', (fill_identifiers [c6GoodRow]).get? 0 = some r' ∧
        r'.fingerprint ≠ "" ∧ r'.primary_id ≠ "" :=
  ⟨rfl, by decide,
    backfill_populates_identifiers [c6GoodRow] 0 c6GoodRow rfl (by decide)⟩

/-! ### C7 — completeness classification -/

theorem is_book_complete_iff (entry : Entry) :
    is_book_complete entry defaultCfg = true ↔
      (pyStrip (entry "title") ≠ "" ∧ pyStrip (entry "authors") ≠ "" ∧
        pyStrip (entry "year") ≠ "" ∧
        (pyStrip (entry "isbn") ≠ "" ∨ pyStrip (entry "url") ≠ "")) := by
  simp [is_book_complete, defaultCfg, hasAllFields]
  tauto

theorem is_article_complete_iff (entry : Entry) :
    is_article_complete entry defaultCfg = true ↔
      (pyStrip (entry "title") ≠ "" ∧ pyStrip (entry "authors") ≠ "" ∧
        pyStrip (entry "year") ≠ "" ∧
        (pyStrip (entry "doi") ≠ "" ∨
          ((pyStrip (entry "journal") ≠ "" ∨ pyStrip (entry "venue") ≠ "") ∧
            pyStrip (entry "volume") ≠ "" ∧ pyStrip (entry "issue") ≠ "" ∧
            pyStrip (entry "pages") ≠ ""))) := by
  by_cases hj : pyStrip (entry "journal") ≠ "" <;>
    simp [is_article_complete, defaultCfg, hasAllFields, hj] <;>
    tauto

/-- C7: `is_complete` holds exactly as the spec's case analysis states —
articles need the common fields plus a DOI or a full journal/venue,
volume, issue, pages block; books need the common fields plus an ISBN or a
URL; every other (normalized) `type` is incomplete.  Field emptiness is
whitespace-stripped emptiness, as in the code. -/
theorem is_complete_characterization (entry : Entry) :
    is_complete entry defaultCfg = true ↔
      ((pyLower (pyStrip (entry "type")) = "article" ∧
        pyStrip (entry "title") ≠ "" ∧ pyStrip (entry "authors") ≠ "" ∧
        pyStrip (entry "year") ≠ "" ∧
        (pyStrip (entry "doi") ≠ "" ∨
          ((pyStrip (entry "journal") ≠ "" ∨ pyStrip (entry "venue") ≠ "") ∧
            pyStrip (entry "volume") ≠ "" ∧ pyStrip (entry "issue") ≠ "" ∧
            pyStrip (entry "pages") ≠ ""))) ∨
       (pyLower (pyStrip (entry "type")) = "book" ∧
        pyStrip (entry "title") ≠ "" ∧ pyStrip (entry "authors") ≠ "" ∧
        pyStrip (entry "year") ≠ "" ∧
        (pyStrip (entry "isbn") ≠ "" ∨ pyStrip (entry "url") ≠ ""))) := by
  by_cases hb : pyLower (pyStrip (entry "type")) = "book"
  · have hna : ¬ pyLower (pyStrip (entry "type")) = "article" := by
      rw [hb]; decide
    rw [show is_complete entry defaultCfg = is_book_complete entry defaultCfg from
      by simp [is_complete, hb]]
    rw [is_book_complete_iff]
    tauto
  · by_cases ha : pyLower (pyStrip (entry "type")) = "article"
    · rw [show is_complete entry defaultCfg = is_article_complete entry defaultCfg
        from by simp [is_complete, hb, ha]]
      rw [is_article_complete_iff]
      tauto
    · rw [show is_complete entry defaultCfg = false from by simp [is_complete, hb, ha]]
      simp only [Bool.false_eq_true, false_iff]
      tauto

/-- Concrete article record for the C7 witness (the spec's own example:
`{type: "article", doi: "10.1/x", journal: ""}` plus common fields). -/
def c7Article : Entry := fun k =>
  if k = "type" then "article"
  else if k = "title" then "T"
  else if k = "authors" then "A"
  else if k = "year" then "2020"
  else if k = "doi" then "10.1/x"
  else ""

/-- C7 witness: the concrete article with a DOI is complete. -/
theorem is_complete_characterization_witness :
    is_complete c7Article defaultCfg = true :=
  (is_complete_characterization c7Article).mpr (by decide)

/-! ### C8 — primary id priority -/

/-- C8 counterexample: the implementation strips its arguments, the claim's
formula does not — they disagree on a doi with surrounding whitespace. -/
theorem primary_id_claim_cex :
    primary_id " X " "" "" "" = "doi:x" ∧
      primaryIdClaim " X " "" "" "" = "doi: x " ∧
      primary_id " X " "" "" "" ≠ primaryIdClaim " X " "" "" "" := by
  decide

/-- C8 (amended): `primary_id` returns, in priority order, the first
non-empty of `"doi:"+lower(strip(doi))`, `"isbn:"+strip(isbn)`,
`"fp:"+strip(fingerprint)`, `"hash:"+strip(fileHash)`, and `""` when all
four inputs are empty. -/
theorem primary_id_priority (d i f h : String) :
    (d ≠ "" → primary_id d i f h = "doi:" ++ pyLower (pyStrip d)) ∧
    (d = "" → i ≠ "" → primary_id d i f h = "isbn:" ++ pyStrip i) ∧
    (d = "" → i = "" → f ≠ "" → primary_id d i f h = "fp:" ++ pyStrip f) ∧
    (d = "" → i = "" → f = "" → h ≠ "" →
      primary_id d i f h = "hash:" ++ pyStrip h) ∧
    (d = "" → i = "" → f = "" → h = "" → primary_id d i f h = "") := by
  refine ⟨fun hd => ?_, fun hd hi => ?_, fun hd hi hf => ?_, fun hd hi hf hh => ?_,
    fun hd hi hf hh => ?_⟩ <;>
    simp_all [primary_id]

/-- C8 witness: the spec's own example `primaryId("10.1/x","123","fp","h")`
resolves through the doi branch. -/
theorem primary_id_priority_witness :
    ("10.1/x" : String) ≠ "" ∧
      primary_id "10.1/x" "123" "fp" "h" = "doi:" ++ pyLower (pyStrip "10.1/x") :=
  ⟨by decide, (primary_id_priority "10.1/x" "123" "fp" "h").1 (by decide)⟩

/-! ### C9 — cache snapshot loading -/

/-- C9: a missing snapshot and an unparsable snapshot both yield the empty
four-kind cache, but a snapshot holding valid non-object JSON (such as
`[]`) makes `_MetadataCache._load` raise `AttributeError` — the
`setdefault` loop runs outside the `try` block. -/
theorem cache_load_eval :
    cacheLoad none = Except.ok emptyCacheData ∧
      cacheLoad (some none) = Except.ok emptyCacheData ∧
      cacheLoad (some (some (PyJson.arr []))) = Except.error "AttributeError" :=
  ⟨rfl, rfl, rfl⟩

/-! ### C10 — duplicate identity keys resolve to the earliest row -/

theorem firstIdxFrom_nil (κ : IdKind) (k : String) (n : Nat) :
    firstIdxFrom κ k n [] = none := rfl

theorem firstIdxFrom_cons (κ : IdKind) (k : String) (n : Nat) (r : IdRow)
    (rest : List IdRow) :
    firstIdxFrom κ k n (r :: rest) =
      if keyOf κ r = k then some n else firstIdxFrom κ k (n + 1) rest := rfl

theorem lookupIdx_append_some (m m' : List (String × Nat)) (k : String) (v : Nat)
    (h : lookupIdx m k = some v) : lookupIdx (m ++ m') k = some v := by
  induction m with
  | nil => cases h
  | cons p rest ih =>
    obtain ⟨k', v'⟩ := p
    show (if k' = k then some v' else lookupIdx (rest ++ m') k) = some v
    by_cases he : k' = k
    · rw [if_pos he]
      rw [show lookupIdx ((k', v') :: rest) k = some v' from by
        show (if k' = k then some v' else _) = _; rw [if_pos he]] at h
      exact h
    · rw [if_neg he]
      apply ih
      rw [show lookupIdx ((k', v') :: rest) k = lookupIdx rest k from by
        show (if k' = k then some v' else _) = _; rw [if_neg he]] at h
      exact h

theorem lookupIdx_append_none (m m' : List (String × Nat)) (k : String)
    (h : lookupIdx m k = none) : lookupIdx (m ++ m') k = lookupIdx m' k := by
  induction m with
  | nil => rfl
  | cons p rest ih =>
    obtain ⟨k', v'⟩ := p
    show (if k' = k then some v' else lookupIdx (rest ++ m') k) = lookupIdx m' k
    by_cases he : k' = k
    · rw [show lookupIdx ((k', v') :: rest) k = some v' from by
        show (if k' = k then some v' else _) = _; rw [if_pos he]] at h
      cases h
    · rw [if_neg he]
      apply ih
      rw [show lookupIdx ((k', v') :: rest) k = lookupIdx rest k from by
        show (if k' = k then some v' else _) = _; rw [if_neg he]] at h
      exact h

/-- Keys already present in the accumulator survive the `_build_index`
fold unchanged (`setdefault` never overwrites). -/
theorem foldIdx_lookup_some (rows : List IdRow) (n : Nat)
    (acc : IdKind → List (String × Nat)) (κ : IdKind) (k : String) (v : Nat)
    (h : lookupIdx (acc κ) k = some v) :
    lookupIdx
      (((withIdxI n rows).foldl (fun idx p => insKeys idx p.1 p.2) acc) κ) k
      = some v := by
  induction rows generalizing n acc with
  | nil => exact h
  | cons r rest ih =>
    show lookupIdx
      (((withIdxI (n + 1) rest).foldl (fun idx p => insKeys idx p.1 p.2)
        (insKeys acc n r)) κ) k = some v
    apply ih
    show lookupIdx
      (if keyOf κ r = "" then acc κ else setdefaultIdx (acc κ) (keyOf κ r) n) k
      = some v
    by_cases hz : keyOf κ r = ""
    · rw [if_pos hz]; exact h
    · rw [if_neg hz]
      unfold setdefaultIdx
      by_cases hs : (lookupIdx (acc κ) (keyOf κ r)).isSome
      · rw [if_pos hs]; exact h
      · rw [if_neg hs]
        exact lookupIdx_append_some _ _ _ _ h

/-- Keys absent from the accumulator end up mapped to the position of the
earliest row that carries them. -/
theorem foldIdx_lookup_none (rows : List IdRow) (n : Nat)
    (acc : IdKind → List (String × Nat)) (κ : IdKind) (k : String) (hk : k ≠ "")
    (h : lookupIdx (acc κ) k = none) :
    lookupIdx
      (((withIdxI n rows).foldl (fun idx p => insKeys idx p.1 p.2) acc) κ) k
      = firstIdxFrom κ k n rows := by
  induction rows generalizing n acc with
  | nil => exact h
  | cons r rest ih =>
    show lookupIdx
      (((withIdxI (n + 1) rest).foldl (fun idx p => insKeys idx p.1 p.2)
        (insKeys acc n r)) κ) k = firstIdxFrom κ k n (r :: rest)
    have hacc : (insKeys acc n r) κ =
        if keyOf κ r = "" then acc κ else setdefaultIdx (acc κ) (keyOf κ r) n := rfl
    by_cases hz : keyOf κ r = ""
    · have hne : keyOf κ r ≠ k := fun he => hk (hz ▸ he).symm
      rw [firstIdxFrom_cons, if_neg hne]
      apply ih
      rw [hacc, if_pos hz]; exact h
    · by_cases hs : (lookupIdx (acc κ) (keyOf κ r)).isSome
      · have hne : keyOf κ r ≠ k := by
          intro he; rw [he, h] at hs; cases hs
        rw [firstIdxFrom_cons, if_neg hne]
        apply ih
        rw [hacc, if_neg hz]
        unfold setdefaultIdx
        rw [if_pos hs]; exact h
      · have hacc2 : (insKeys acc n r) κ = acc κ ++ [(keyOf κ r, n)] := by
          rw [hacc, if_neg hz]
          unfold setdefaultIdx
          rw [if_neg hs]
        by_cases hkr : keyOf κ r = k
        · rw [firstIdxFrom_cons, if_pos hkr]
          apply foldIdx_lookup_some
          rw [hacc2, lookupIdx_append_none _ _ _ h]
          show (if keyOf κ r = k then some n else none) = some n
          rw [if_pos hkr]
        · rw [firstIdxFrom_cons, if_neg hkr]
          apply ih
          rw [hacc2, lookupIdx_append_none _ _ _ h]
          show (if keyOf κ r = k then some n else none) = none
          rw [if_neg hkr]

/-- The index built by `_build_index` maps every non-empty key to the
position of the earliest row carrying it. -/
theorem buildIndex_lookup (rows : List IdRow) (κ : IdKind) (k : String)
    (hk : k ≠ "") :
    lookupIdx ((buildIndex rows) κ) k = firstIdxFrom κ k 0 rows :=
  foldIdx_lookup_none rows 0 (fun _ => []) κ k hk rfl

theorem firstIdxFrom_spec (κ : IdKind) (k : String) (rows : List IdRow) :
    ∀ n j, firstIdxFrom κ k n rows = some j →
      ∃ m, j = n + m ∧ (∃ rm, rows.get? m = some rm ∧ keyOf κ rm = k) ∧
        ∀ m' rm', m' < m → rows.get? m' = some rm' → keyOf κ rm' ≠ k := by
  induction rows with
  | nil => intro n j h; cases h
  | cons r rest ih =>
    intro n j h
    rw [firstIdxFrom_cons] at h
    by_cases hkr : keyOf κ r = k
    · rw [if_pos hkr] at h
      have hj : n = j := by injection h
      refine ⟨0, by omega, ⟨r, rfl, hkr⟩, ?_⟩
      intro m' rm' hm' _
      exact absurd hm' (Nat.not_lt_zero m')
    · rw [if_neg hkr] at h
      obtain ⟨m, hj, ⟨rm, hget, hkey⟩, hmin⟩ := ih (n + 1) j h
      refine ⟨m + 1, by omega, ⟨rm, by simpa using hget, hkey⟩, ?_⟩
      intro m' rm' hlt hget'
      cases m' with
      | zero =>
        have hinj : some r = some rm' := hget'
        injection hinj with hinj
        rw [← hinj]; exact hkr
      | succ m'' =>
        have hget'' : rest.get? m'' = some rm' := by simpa using hget'
        exact hmin m'' rm' (by omega) hget''

theorem firstIdxFrom_isSome (κ : IdKind) (k : String) (rows : List IdRow) :
    (∃ r, r ∈ rows ∧ keyOf κ r = k) → ∀ n, (firstIdxFrom κ k n rows).isSome := by
  induction rows with
  | nil => rintro ⟨r, hr, _⟩; cases hr
  | cons r rest ih =>
    rintro ⟨r₀, hr₀, hk₀⟩ n
    rw [firstIdxFrom_cons]
    by_cases hkr : keyOf κ r = k
    · rw [if_pos hkr]; rfl
    · rw [if_neg hkr]
      rcases List.mem_cons.mp hr₀ with he | hm
      · exact absurd (he ▸ hk₀) hkr
      · exact ih ⟨r₀, hm, hk₀⟩ (n + 1)

/-- C10: when the loaded master table carries duplicate identity keys, the
run-start index maps each key to the earliest (lowest-position) row, and
`_find_match` sends every candidate that matches only via that key to that
earliest row; later duplicates never receive merges through that key. -/
theorem find_match_earliest (rows : List IdRow) (e : IdRow) (κ : IdKind)
    (honly : ∀ κ' : IdKind, κ'.rank < κ.rank →
      keyOf κ' e = "" ∨ lookupIdx ((buildIndex rows) κ') (keyOf κ' e) = none)
    (hk : keyOf κ e ≠ "")
    (hhit : ∃ r, r ∈ rows ∧ keyOf κ r = keyOf κ e) :
    ∃ n rn, lookupIdx ((buildIndex rows) κ) (keyOf κ e) = some n ∧
      findMatch e (buildIndex rows) = some n ∧
      rows.get? n = some rn ∧ keyOf κ rn = keyOf κ e ∧
      ∀ m rm, m < n → rows.get? m = some rm → keyOf κ rm ≠ keyOf κ e := by
  have hlk := buildIndex_lookup rows κ (keyOf κ e) hk
  have hsome := firstIdxFrom_isSome κ (keyOf κ e) rows hhit 0
  rw [← hlk] at hsome
  obtain ⟨n, hn⟩ := Option.isSome_iff_exists.mp hsome
  have hfst : firstIdxFrom κ (keyOf κ e) 0 rows = some n := by rw [← hlk]; exact hn
  obtain ⟨m, hm0, ⟨rn, hget, hkey⟩, hmin⟩ :=
    firstIdxFrom_spec κ (keyOf κ e) rows 0 n hfst
  have hmn : m = n := by omega
  subst hmn
  have hfail : ∀ κ' : IdKind, κ'.rank < κ.rank →
      ¬(keyOf κ' e ≠ "" ∧ (lookupIdx ((buildIndex rows) κ') (keyOf κ' e)).isSome) := by
    intro κ' hr hand
    rcases honly κ' hr with h0 | h0
    · exact hand.1 h0
    · rw [h0] at hand
      cases hand.2
  have hmatch : findMatch e (buildIndex rows) = some m := by
    cases κ with
    | doi =>
      show (if keyOf .doi e ≠ "" ∧ (lookupIdx ((buildIndex rows) .doi)
          (keyOf .doi e)).isSome then _ else _) = some m
      rw [if_pos ⟨hk, by rw [hn]; rfl⟩]
      exact hn
    | isbn =>
      unfold findMatch
      rw [if_neg (hfail .doi (by decide))]
      rw [if_pos ⟨hk, by rw [hn]; rfl⟩]
      exact hn
    | fp =>
      unfold findMatch
      rw [if_neg (hfail .doi (by decide))]
      rw [if_neg (hfail .isbn (by decide))]
      rw [if_pos ⟨hk, by rw [hn]; rfl⟩]
      exact hn
    | fh =>
      unfold findMatch
      rw [if_neg (hfail .doi (by decide))]
      rw [if_neg (hfail .isbn (by decide))]
      rw [if_neg (hfail .fp (by decide))]
      rw [if_pos ⟨hk, by rw [hn]; rfl⟩]
      exact hn
  exact ⟨m, rn, hn, hmatch, hget, hkey, hmin⟩

/-- Master table with a duplicated fingerprint for the C10 witness. -/
def c10Rows : List IdRow :=
  [{ doi := "", isbn := "", fingerprint := "x", file_hash := "h0" },
   { doi := "10.1/a", isbn := "", fingerprint := "x", file_hash := "h1" },
   { doi := "", isbn := "", fingerprint := "y", file_hash := "h2" }]

/-- Candidate matching only via the duplicated fingerprint. -/
def c10Cand : IdRow :=
  { doi := "10.9/new", isbn := "", fingerprint := "x", file_hash := "hh" }

/-- C10 witness: the candidate with the duplicated fingerprint `x` is
directed to row 0, the earliest carrier. -/
theorem find_match_earliest_witness :
    keyOf .fp c10Cand ≠ "" ∧
      (∃ n rn, lookupIdx ((buildIndex c10Rows) .fp) (keyOf .fp c10Cand) = some n ∧
        findMatch c10Cand (buildIndex c10Rows) = some n ∧
        c10Rows.get? n = some rn ∧ keyOf .fp rn = keyOf .fp c10Cand ∧
        ∀ m rm, m < n → c10Rows.get? m = some rm →
          keyOf .fp rm ≠ keyOf .fp c10Cand) :=
  ⟨by decide,
    find_match_earliest c10Rows c10Cand .fp (by decide) (by decide) (by decide)⟩

/-! ### C2 — preprint replacement: supporting lemmas -/

theorem get?_set_other {α : Type} (l : List α) (i j : Nat) (a : α) (h : i ≠ j) :
    (l.set j a).get? i = l.get? i := by
  induction l generalizing i j with
  | nil => rfl
  | cons b t ih =>
    cases j with
    | zero =>
      cases i with
      | zero => exact absurd rfl h
      | succ i' => rfl
    | succ j' =>
      cases i with
      | zero => rfl
      | succ i' => exact ih i' j' (fun he => h (by rw [he]))

theorem get?_set_self {α : Type} (l : List α) (i : Nat) (a b : α)
    (h : l.get? i = some b) : (l.set i a).get? i = some a := by
  induction l generalizing i with
  | nil => cases h
  | cons c t ih =>
    cases i with
    | zero => rfl
    | succ i' => exact ih i' h

theorem setReplaced_get_other (rows : List PRow) (i j : Nat) (v : String)
    (h : i ≠ j) : (setReplaced rows j v).get? i = rows.get? i := by
  unfold setReplaced
  cases hj : rows.get? j with
  | none => rfl
  | some r => exact get?_set_other rows i j _ h

theorem setReplaced_get_self (rows : List PRow) (i : Nat) (r : PRow) (v : String)
    (h : rows.get? i = some r) :
    (setReplaced rows i v).get? i = some { r with replaced_by := v } := by
  unfold setReplaced
  rw [h]
  exact get?_set_self rows i _ r h

/-- Folding the per-preprint `replaced_by` updates: position `i` ends at
`{ r with replaced_by := v }` when some update targets it, else stays `r`. -/
theorem foldl_setRepl_any (ps : List (Nat × PRow)) (acc : List PRow) (i : Nat)
    (r : PRow) (v : String) (hacc : acc.get? i = some r) :
    (ps.foldl (fun a it => setReplaced a it.1 v) acc).get? i =
      some (if ps.any (fun it => it.1 == i) then { r with replaced_by := v }
        else r) := by
  induction ps generalizing acc r with
  | nil => simpa using hacc
  | cons it rest ih =>
    obtain ⟨j, s⟩ := it
    show (rest.foldl (fun a it => setReplaced a it.1 v)
      (setReplaced acc j v)).get? i = _
    by_cases hj : j = i
    · have h2 : (setReplaced acc j v).get? i = some { r with replaced_by := v } := by
        rw [hj]
        exact setReplaced_get_self acc i r v hacc
      rw [ih (setReplaced acc j v) { r with replaced_by := v } h2]
      have hbeq : (j == i) = true := by simp [hj]
      have hany : (((j, s) :: rest).any fun it => it.1 == i) = true := by
        simp [List.any_cons, hbeq]
      rw [hany]
      by_cases h3 : (rest.any fun it => it.1 == i) = true
      · rw [if_pos h3, if_pos rfl]
      · rw [if_neg h3, if_pos rfl]
    · have h2 : (setReplaced acc j v).get? i = some r := by
        rw [setReplaced_get_other acc i j v (fun he => hj he.symm)]
        exact hacc
      rw [ih (setReplaced acc j v) r h2]
      have hbeq : (j == i) = false := by
        simpa using hj
      have hany : (((j, s) :: rest).any fun it => it.1 == i)
          = (rest.any fun it => it.1 == i) := by
        simp [List.any_cons, hbeq]
      rw [hany]

theorem foldl_setRepl_untouched (ps : List (Nat × PRow)) (acc : List PRow)
    (i : Nat) (v : String) (h : ∀ it ∈ ps, it.1 ≠ i) :
    (ps.foldl (fun a it => setReplaced a it.1 v) acc).get? i = acc.get? i := by
  induction ps generalizing acc with
  | nil => rfl
  | cons it rest ih =>
    show (rest.foldl (fun a it => setReplaced a it.1 v)
      (setReplaced acc it.1 v)).get? i = acc.get? i
    rw [ih _ (fun x hx => h x (List.mem_cons_of_mem _ hx))]
    exact setReplaced_get_other acc i it.1 v
      (fun he => h it (List.mem_cons_self _ _) he.symm)

/-- What `applyGroup` leaves at position `i`, given its current row. -/
theorem applyGroup_get (acc : List PRow) (items : List (Nat × PRow)) (i : Nat)
    (r : PRow) (hacc : acc.get? i = some r) :
    (applyGroup acc items).get? i =
      match (items.filter fun it => it.2.version = "final").head? with
      | none => some r
      | some f =>
        if (items.filter fun it => it.2.version = "preprint").any
            (fun it => it.1 == i) then
          some { r with replaced_by := pyStrip f.2.primary_id }
        else some r := by
  unfold applyGroup
  cases hf : (items.filter fun it => it.2.version = "final").head? with
  | none => exact hacc
  | some f =>
    show (if (items.filter fun it => it.2.version = "preprint").isEmpty then acc
        else (items.filter fun it => it.2.version = "preprint").foldl
          (fun acc it => setReplaced acc it.1 (pyStrip f.2.primary_id)) acc).get? i
      = if (items.filter fun it => it.2.version = "preprint").any
            (fun it => it.1 == i) then
          some { r with replaced_by := pyStrip f.2.primary_id }
        else some r
    by_cases hp : (items.filter fun it => it.2.version = "preprint").isEmpty
    · rw [if_pos hp]
      have hnil : (items.filter fun it => it.2.version = "preprint") = [] := by
        cases he : items.filter fun it => it.2.version = "preprint"
        · rfl
        · rw [he] at hp; cases hp
      rw [hnil]
      simpa using hacc
    · rw [if_neg hp]
      rw [foldl_setRepl_any _ acc i r _ hacc, apply_ite some]

theorem applyGroup_untouched (acc : List PRow) (items : List (Nat × PRow))
    (i : Nat) (h : ∀ it ∈ items, it.1 ≠ i) :
    (applyGroup acc items).get? i = acc.get? i := by
  unfold applyGroup
  cases hf : (items.filter fun it => it.2.version = "final").head? with
  | none => rfl
  | some f =>
    show (if (items.filter fun it => it.2.version = "preprint").isEmpty then acc
        else (items.filter fun it => it.2.version = "preprint").foldl
          (fun acc it => setReplaced acc it.1 (pyStrip f.2.primary_id)) acc).get? i
      = acc.get? i
    by_cases hp : (items.filter fun it => it.2.version = "preprint").isEmpty
    · rw [if_pos hp]
    · rw [if_neg hp]
      apply foldl_setRepl_untouched
      intro it hit
      exact h it (List.mem_filter.mp hit).1

theorem foldApply_untouched (gs : List (String × List (Nat × PRow)))
    (acc : List PRow) (i : Nat) (h : ∀ g ∈ gs, ∀ it ∈ g.2, it.1 ≠ i) :
    (gs.foldl (fun acc g => applyGroup acc g.2) acc).get? i = acc.get? i := by
  induction gs generalizing acc with
  | nil => rfl
  | cons g rest ih =>
    show (rest.foldl (fun acc g => applyGroup acc g.2)
      (applyGroup acc g.2)).get? i = acc.get? i
    rw [ih _ (fun g' hg' => h g' (List.mem_cons_of_mem _ hg'))]
    exact applyGroup_untouched acc g.2 i (h g (List.mem_cons_self _ _))

theorem lookupGrp_insertGrp_eq (gs : List (String × List (Nat × PRow)))
    (fp : String) (item : Nat × PRow) :
    lookupGrp (insertGrp gs fp item) fp =
      some ((lookupGrp gs fp).getD [] ++ [item]) := by
  induction gs with
  | nil =>
    show (if fp = fp then some [item] else none) = some ([] ++ [item])
    rw [if_pos rfl]
    rfl
  | cons g rest ih =>
    obtain ⟨k', items⟩ := g
    by_cases he : k' = fp
    · show lookupGrp (if k' = fp then (k', items ++ [item]) :: rest
        else (k', items) :: insertGrp rest fp item) fp = _
      rw [if_pos he]
      show (if k' = fp then some (items ++ [item]) else lookupGrp rest fp) = _
      rw [if_pos he]
      show _ = some ((if k' = fp then some items else lookupGrp rest fp).getD [] ++ [item])
      rw [if_pos he]
      rfl
    · show lookupGrp (if k' = fp then (k', items ++ [item]) :: rest
        else (k', items) :: insertGrp rest fp item) fp = _
      rw [if_neg he]
      show (if k' = fp then some items else lookupGrp (insertGrp rest fp item) fp) = _
      rw [if_neg he, ih]
      show _ = some ((if k' = fp then some items else lookupGrp rest fp).getD [] ++ [item])
      rw [if_neg he]

theorem lookupGrp_insertGrp_ne (gs : List (String × List (Nat × PRow)))
    (fp : String) (item : Nat × PRow) (k : String) (h : fp ≠ k) :
    lookupGrp (insertGrp gs fp item) k = lookupGrp gs k := by
  induction gs with
  | nil =>
    show (if fp = k then some [item] else none) = none
    rw [if_neg h]
  | cons g rest ih =>
    obtain ⟨k', items⟩ := g
    by_cases he : k' = fp
    · show lookupGrp (if k' = fp then (k', items ++ [item]) :: rest
        else (k', items) :: insertGrp rest fp item) k = _
      rw [if_pos he]
      show (if k' = k then some (items ++ [item]) else lookupGrp rest k) = _
      have hne : ¬ k' = k := by rw [he]; exact h
      rw [if_neg hne]
      show _ = if k' = k then some items else lookupGrp rest k
      rw [if_neg hne]
    · show lookupGrp (if k' = fp then (k', items ++ [item]) :: rest
        else (k', items) :: insertGrp rest fp item) k = _
      rw [if_neg he]
      show (if k' = k then some items else lookupGrp (insertGrp rest fp item) k) = _
      by_cases hk' : k' = k
      · rw [if_pos hk']
        show _ = if k' = k then some items else lookupGrp rest k
        rw [if_pos hk']
      · rw [if_neg hk', ih]
        show _ = if k' = k then some items else lookupGrp rest k
        rw [if_neg hk']

/-- A key present in the accumulated groups keeps collecting, in order, the
later rows that carry it. -/
theorem foldGrp_lookup_some (ps : List (Nat × PRow))
    (gs : List (String × List (Nat × PRow))) (k : String) (hk : k ≠ "")
    (base : List (Nat × PRow)) (h : lookupGrp gs k = some base) :
    lookupGrp (ps.foldl grpStep gs) k =
      some (base ++ ps.filter fun p => pyStrip p.2.fingerprint = k) := by
  induction ps generalizing gs base with
  | nil =>
    show lookupGrp gs k = some (base ++ [])
    rw [List.append_nil]
    exact h
  | cons p rest ih =>
    show lookupGrp (rest.foldl grpStep (grpStep gs p)) k = _
    by_cases hz : pyStrip p.2.fingerprint = ""
    · have hpred : ¬ pyStrip p.2.fingerprint = k := by rw [hz]; exact fun he => hk he.symm
      rw [List.filter_cons_of_neg (by simpa using hpred)]
      have hstep : grpStep gs p = gs := by unfold grpStep; rw [if_pos hz]
      rw [hstep]
      exact ih gs base h
    · have hstep : grpStep gs p = insertGrp gs (pyStrip p.2.fingerprint) p := by
        unfold grpStep; rw [if_neg hz]
      rw [hstep]
      by_cases hpk : pyStrip p.2.fingerprint = k
      · rw [List.filter_cons_of_pos (by simpa using hpk)]
        have h2 : lookupGrp (insertGrp gs (pyStrip p.2.fingerprint) p) k
            = some (base ++ [p]) := by
          rw [← hpk] at h ⊢
          rw [lookupGrp_insertGrp_eq, h]
          rfl
        rw [ih _ (base ++ [p]) h2, List.append_assoc]
        rfl
      · rw [List.filter_cons_of_neg (by simpa using hpk)]
        have h2 : lookupGrp (insertGrp gs (pyStrip p.2.fingerprint) p) k = some base := by
          rw [lookupGrp_insertGrp_ne _ _ _ _ hpk]
          exact h
        exact ih _ base h2

/-- A key absent from the accumulated groups ends up, after the grouping
fold, holding exactly the rows that carry it (or stays absent). -/
theorem foldGrp_lookup_none (ps : List (Nat × PRow))
    (gs : List (String × List (Nat × PRow))) (k : String) (hk : k ≠ "")
    (h : lookupGrp gs k = none) :
    lookupGrp (ps.foldl grpStep gs) k =
      if (ps.filter fun p => pyStrip p.2.fingerprint = k).isEmpty then none
      else some (ps.filter fun p => pyStrip p.2.fingerprint = k) := by
  induction ps generalizing gs with
  | nil => exact h
  | cons p rest ih =>
    show lookupGrp (rest.foldl grpStep (grpStep gs p)) k = _
    by_cases hz : pyStrip p.2.fingerprint = ""
    · have hpred : ¬ pyStrip p.2.fingerprint = k := by rw [hz]; exact fun he => hk he.symm
      rw [List.filter_cons_of_neg (by simpa using hpred)]
      have hstep : grpStep gs p = gs := by unfold grpStep; rw [if_pos hz]
      rw [hstep]
      exact ih gs h
    · have hstep : grpStep gs p = insertGrp gs (pyStrip p.2.fingerprint) p := by
        unfold grpStep; rw [if_neg hz]
      rw [hstep]
      by_cases hpk : pyStrip p.2.fingerprint = k
      · rw [List.filter_cons_of_pos (by simpa using hpk)]
        have h2 : lookupGrp (insertGrp gs (pyStrip p.2.fingerprint) p) k
            = some [p] := by
          rw [← hpk] at h ⊢
          rw [lookupGrp_insertGrp_eq, h]
          rfl
        rw [foldGrp_lookup_some rest _ k hk [p] h2]
        rfl
      · rw [List.filter_cons_of_neg (by simpa using hpk)]
        have h2 : lookupGrp (insertGrp gs (pyStrip p.2.fingerprint) p) k = none := by
          rw [lookupGrp_insertGrp_ne _ _ _ _ hpk]
          exact h
        exact ih _ h2

/-- `_apply_preprint_replacements`' groups: each non-empty fingerprint key
maps to exactly the indexed rows carrying it, in row order. -/
theorem buildGroups_lookup (rows : List PRow) (k : String) (hk : k ≠ "") :
    lookupGrp (buildGroups rows) k =
      if ((withIdx 0 rows).filter fun p => pyStrip p.2.fingerprint = k).isEmpty
      then none
      else some ((withIdx 0 rows).filter fun p => pyStrip p.2.fingerprint = k) :=
  foldGrp_lookup_none (withIdx 0 rows) [] k hk rfl

theorem lookupGrp_mem (gs : List (String × List (Nat × PRow))) (k : String)
    (items : List (Nat × PRow)) (h : lookupGrp gs k = some items) :
    (k, items) ∈ gs := by
  induction gs with
  | nil => cases h
  | cons g rest ih =>
    obtain ⟨k', items'⟩ := g
    by_cases he : k' = k
    · have h2 : some items' = some items := by
        rw [show lookupGrp ((k', items') :: rest) k
            = if k' = k then some items' else lookupGrp rest k from rfl, if_pos he] at h
        exact h
      have h3 : items' = items := by injection h2
      rw [← he, ← h3]
      exact List.mem_cons_self _ _
    · have h2 : lookupGrp rest k = some items := by
        rw [show lookupGrp ((k', items') :: rest) k
            = if k' = k then some items' else lookupGrp rest k from rfl, if_neg he] at h
        exact h
      exact List.mem_cons_of_mem _ (ih h2)

theorem keys_mem_isSome (gs : List (String × List (Nat × PRow))) (k : String)
    (h : k ∈ gs.map Prod.fst) : (lookupGrp gs k).isSome := by
  induction gs with
  | nil => cases h
  | cons g rest ih =>
    obtain ⟨k', items'⟩ := g
    show (if k' = k then some items' else lookupGrp rest k).isSome
    by_cases he : k' = k
    · rw [if_pos he]; rfl
    · rw [if_neg he]
      rcases List.mem_cons.mp h with h0 | h0
      · exact absurd h0.symm he
      · exact ih h0

theorem insertGrp_keys (gs : List (String × List (Nat × PRow))) (fp : String)
    (item : Nat × PRow) :
    (insertGrp gs fp item).map Prod.fst =
      if (lookupGrp gs fp).isSome then gs.map Prod.fst
      else gs.map Prod.fst ++ [fp] := by
  induction gs with
  | nil =>
    show [fp] = if (none : Option (List (Nat × PRow))).isSome then [] else [] ++ [fp]
    rfl
  | cons g rest ih =>
    obtain ⟨k', items'⟩ := g
    by_cases he : k' = fp
    · show ((if k' = fp then (k', items' ++ [item]) :: rest
        else (k', items') :: insertGrp rest fp item)).map Prod.fst = _
      rw [if_pos he]
      have : (if k' = fp then some items' else lookupGrp rest fp).isSome = true := by
        rw [if_pos he]; rfl
      rw [show lookupGrp ((k', items') :: rest) fp
          = if k' = fp then some items' else lookupGrp rest fp from rfl]
      rw [if_pos this]
      rfl
    · show ((if k' = fp then (k', items' ++ [item]) :: rest
        else (k', items') :: insertGrp rest fp item)).map Prod.fst = _
      rw [if_neg he]
      rw [show lookupGrp ((k', items') :: rest) fp
          = if k' = fp then some items' else lookupGrp rest fp from rfl, if_neg he]
      show k' :: (insertGrp rest fp item).map Prod.fst = _
      rw [ih]
      by_cases hs : (lookupGrp rest fp).isSome
      · rw [if_pos hs, if_pos hs]
        rfl
      · rw [if_neg hs, if_neg hs]
        rfl

theorem foldGrp_keys_nodup (ps : List (Nat × PRow))
    (gs : List (String × List (Nat × PRow))) (h : (gs.map Prod.fst).Nodup) :
    ((ps.foldl grpStep gs).map Prod.fst).Nodup := by
  induction ps generalizing gs with
  | nil => exact h
  | cons p rest ih =>
    show ((rest.foldl grpStep (grpStep gs p)).map Prod.fst).Nodup
    apply ih
    unfold grpStep
    by_cases hz : pyStrip p.2.fingerprint = ""
    · rw [if_pos hz]; exact h
    · rw [if_neg hz, insertGrp_keys]
      by_cases hs : (lookupGrp gs (pyStrip p.2.fingerprint)).isSome
      · rw [if_pos hs]; exact h
      · rw [if_neg hs]
        rw [List.nodup_append]
        refine ⟨h, List.nodup_singleton _, ?_⟩
        intro a ha hb
        have hafp : a = pyStrip p.2.fingerprint := by simpa using hb
        rw [hafp] at ha
        rw [keys_mem_isSome gs _ ha] at hs
        exact hs rfl

theorem foldGrp_keys_ne (ps : List (Nat × PRow))
    (gs : List (String × List (Nat × PRow))) (h : ∀ g ∈ gs, g.1 ≠ "") :
    ∀ g ∈ ps.foldl grpStep gs, g.1 ≠ "" := by
  induction ps generalizing gs with
  | nil => exact h
  | cons p rest ih =>
    show ∀ g ∈ rest.foldl grpStep (grpStep gs p), g.1 ≠ ""
    apply ih
    intro g hg
    unfold grpStep at hg
    by_cases hz : pyStrip p.2.fingerprint = ""
    · rw [if_pos hz] at hg; exact h g hg
    · rw [if_neg hz] at hg
      have hkey : g.1 ∈ (insertGrp gs (pyStrip p.2.fingerprint) p).map Prod.fst :=
        List.mem_map_of_mem Prod.fst hg
      rw [insertGrp_keys] at hkey
      by_cases hs : (lookupGrp gs (pyStrip p.2.fingerprint)).isSome
      · rw [if_pos hs] at hkey
        obtain ⟨g', hg', he⟩ := List.mem_map.mp hkey
        rw [← he]
        exact h g' hg'
      · rw [if_neg hs] at hkey
        rcases List.mem_append.mp hkey with h0 | h0
        · obtain ⟨g', hg', he⟩ := List.mem_map.mp h0
          rw [← he]
          exact h g' hg'
        · have : g.1 = pyStrip p.2.fingerprint := by simpa using h0
          rw [this]
          exact hz

theorem mem_lookupGrp (gs : List (String × List (Nat × PRow)))
    (g : String × List (Nat × PRow)) (hmem : g ∈ gs)
    (hnd : (gs.map Prod.fst).Nodup) : lookupGrp gs g.1 = some g.2 := by
  induction gs with
  | nil => cases hmem
  | cons g' rest ih =>
    obtain ⟨k', items'⟩ := g'
    show (if k' = g.1 then some items' else lookupGrp rest g.1) = some g.2
    rcases List.mem_cons.mp hmem with h0 | h0
    · rw [h0]
      rw [if_pos rfl]
    · have hnd' : (k' :: rest.map Prod.fst).Nodup := hnd
      have hnd2 := List.nodup_cons.mp hnd'
      by_cases he : k' = g.1
      · exfalso
        apply hnd2.1
        rw [he]
        exact List.mem_map_of_mem Prod.fst h0
      · rw [if_neg he]
        exact ih h0 hnd2.2

/-! ### C2 — indexed-row helpers -/

theorem withIdx_mem (rows : List PRow) :
    ∀ n j s, ((j, s) ∈ withIdx n rows) ↔
      ∃ m, j = n + m ∧ rows.get? m = some s := by
  induction rows with
  | nil =>
    intro n j s
    constructor
    · intro h; cases h
    · rintro ⟨m, _, hm⟩; cases hm
  | cons r rest ih =>
    intro n j s
    constructor
    · intro h
      rcases List.mem_cons.mp h with he | hm
      · have hj : j = n := congrArg Prod.fst he
        have hs : s = r := congrArg Prod.snd he
        exact ⟨0, by omega, by rw [hs]; rfl⟩
      · obtain ⟨m, hj, hget⟩ := (ih (n + 1) j s).mp hm
        exact ⟨m + 1, by omega, by simpa using hget⟩
    · rintro ⟨m, hj, hget⟩
      cases m with
      | zero =>
        have hinj : some r = some s := hget
        have hrs : r = s := by injection hinj
        have : (j, s) = (n, r) := by
          rw [← hrs]
          have : j = n := by omega
          rw [this]
        rw [this]
        exact List.mem_cons_self _ _
      | succ m' =>
        refine List.mem_cons_of_mem _ ((ih (n + 1) j s).mpr ⟨m', by omega, ?_⟩)
        simpa using hget

theorem withIdx_filter_map_snd (rows : List PRow) (q : PRow → Bool) :
    ∀ n, ((withIdx n rows).filter fun p => q p.2).map Prod.snd = rows.filter q := by
  induction rows with
  | nil => intro n; rfl
  | cons r rest ih =>
    intro n
    show (((n, r) :: withIdx (n + 1) rest).filter fun p => q p.2).map Prod.snd
      = (r :: rest).filter q
    by_cases hq : q r = true
    · have hq2 : (fun p : Nat × PRow => q p.2) (n, r) = true := hq
      have hstep : ((n, r) :: withIdx (n + 1) rest).filter (fun p => q p.2)
          = (n, r) :: (withIdx (n + 1) rest).filter (fun p => q p.2) :=
        List.filter_cons_of_pos hq2
      have hstep2 : (r :: rest).filter q = r :: rest.filter q :=
        List.filter_cons_of_pos hq
      rw [hstep, hstep2]
      show r :: ((withIdx (n + 1) rest).filter fun p => q p.2).map Prod.snd = _
      rw [ih (n + 1)]
    · have hq2 : ¬ (fun p : Nat × PRow => q p.2) (n, r) = true := by simpa using hq
      have hstep : ((n, r) :: withIdx (n + 1) rest).filter (fun p => q p.2)
          = (withIdx (n + 1) rest).filter (fun p => q p.2) :=
        List.filter_cons_of_neg hq2
      have hstep2 : (r :: rest).filter q = rest.filter q :=
        List.filter_cons_of_neg (by simpa using hq)
      rw [hstep, hstep2]
      exact ih (n + 1)

theorem filterFilter {α : Type} (p q : α → Bool) (l : List α) :
    (l.filter p).filter q = l.filter fun a => p a && q a := by
  induction l with
  | nil => rfl
  | cons a t ih =>
    by_cases hp : p a = true
    · by_cases hq : q a = true
      · rw [List.filter_cons_of_pos hp, List.filter_cons_of_pos hq,
          List.filter_cons_of_pos (by simp [hp, hq]), ih]
      · rw [List.filter_cons_of_pos hp, List.filter_cons_of_neg (by simpa using hq),
          List.filter_cons_of_neg (by simp [hp, hq]), ih]
    · rw [List.filter_cons_of_neg (by simpa using hp),
        List.filter_cons_of_neg (by simp [hp]), ih]

theorem headOptMap {α β : Type} (f : α → β) (l : List α) :
    (l.map f).head? = l.head?.map f := by
  cases l <;> rfl

/-! ### C2 — main development -/

theorem buildGroups_mem_eq (rows : List PRow) (g : String × List (Nat × PRow))
    (h : g ∈ buildGroups rows) :
    g.1 ≠ "" ∧
      g.2 = (withIdx 0 rows).filter fun p => pyStrip p.2.fingerprint = g.1 := by
  have hne : g.1 ≠ "" :=
    foldGrp_keys_ne (withIdx 0 rows) [] (fun g' hg' => absurd hg' (List.not_mem_nil g')) g h
  have hnd : ((buildGroups rows).map Prod.fst).Nodup :=
    foldGrp_keys_nodup (withIdx 0 rows) [] List.nodup_nil
  have hl := mem_lookupGrp (buildGroups rows) g h hnd
  rw [buildGroups_lookup rows g.1 hne] at hl
  by_cases he : ((withIdx 0 rows).filter fun p => pyStrip p.2.fingerprint = g.1).isEmpty
  · rw [if_pos he] at hl; cases hl
  · rw [if_neg he] at hl
    have h2 : (withIdx 0 rows).filter (fun p => pyStrip p.2.fingerprint = g.1) = g.2 := by
      injection hl
    exact ⟨hne, h2.symm⟩

/-- A group whose key differs from row `i`'s stripped fingerprint contains
no item at position `i`. -/
theorem group_not_touching (rows : List PRow) (i : Nat) (r : PRow)
    (hget : rows.get? i = some r) (g : String × List (Nat × PRow))
    (hg : g ∈ buildGroups rows) (hne : g.1 ≠ pyStrip r.fingerprint) :
    ∀ it ∈ g.2, it.1 ≠ i := by
  intro it hit hiti
  obtain ⟨hgne, hgeq⟩ := buildGroups_mem_eq rows g hg
  rw [hgeq] at hit
  have hmem := List.mem_filter.mp hit
  have hpair : (it.1, it.2) ∈ withIdx 0 rows := hmem.1
  obtain ⟨m, hm, hgm⟩ := (withIdx_mem rows 0 it.1 it.2).mp hpair
  have hmi : m = i := by omega
  rw [hmi, hget] at hgm
  have hr : r = it.2 := by injection hgm
  have hpred : pyStrip it.2.fingerprint = g.1 := of_decide_eq_true hmem.2
  rw [← hr] at hpred
  exact hne hpred.symm

/-- C2 (amended): after `_apply_preprint_replacements`, a row with a
non-blank fingerprint whose group contains a `final` row and whose own
`version` is `preprint` carries `replaced_by` equal to the
whitespace-stripped `primary_id` of the first final row of its group; every
other row — blank fingerprint, no final in the group, or not a preprint —
is unchanged. -/
theorem preprint_replacement_characterization (rows : List PRow) (i : Nat)
    (r : PRow) (hget : rows.get? i = some r) :
    (applyPreprintReplacements rows).get? i =
      some (if pyStrip r.fingerprint = "" then r
        else match firstFinal rows (pyStrip r.fingerprint) with
          | none => r
          | some f =>
            if r.version = "preprint" then
              { r with replaced_by := pyStrip f.primary_id }
            else r) := by
  have hmemi : (i, r) ∈ withIdx 0 rows :=
    (withIdx_mem rows 0 i r).mpr ⟨i, by omega, hget⟩
  by_cases hfp : pyStrip r.fingerprint = ""
  · have huntouched : ∀ g ∈ buildGroups rows, ∀ it ∈ g.2, it.1 ≠ i := by
      intro g hg
      apply group_not_touching rows i r hget g hg
      intro he
      exact (buildGroups_mem_eq rows g hg).1 (he.trans hfp)
    show ((buildGroups rows).foldl (fun acc g => applyGroup acc g.2) rows).get? i = _
    rw [foldApply_untouched (buildGroups rows) rows i huntouched, hget, if_pos hfp]
  · have hin : (i, r) ∈ (withIdx 0 rows).filter
        fun p => pyStrip p.2.fingerprint = pyStrip r.fingerprint :=
      List.mem_filter.mpr ⟨hmemi, by simp⟩
    have hne' : ¬ ((withIdx 0 rows).filter
        fun p => pyStrip p.2.fingerprint = pyStrip r.fingerprint).isEmpty := by
      intro hemp
      have hnil : (withIdx 0 rows).filter
          (fun p => pyStrip p.2.fingerprint = pyStrip r.fingerprint) = [] := by
        cases hl : (withIdx 0 rows).filter
          fun p => pyStrip p.2.fingerprint = pyStrip r.fingerprint
        · rfl
        · rw [hl] at hemp; cases hemp
      rw [hnil] at hin
      cases hin
    have hlk : lookupGrp (buildGroups rows) (pyStrip r.fingerprint)
        = some ((withIdx 0 rows).filter
            fun p => pyStrip p.2.fingerprint = pyStrip r.fingerprint) := by
      rw [buildGroups_lookup rows _ hfp, if_neg hne']
    have hmemg : (pyStrip r.fingerprint,
        (withIdx 0 rows).filter
          fun p => pyStrip p.2.fingerprint = pyStrip r.fingerprint)
        ∈ buildGroups rows := lookupGrp_mem _ _ _ hlk
    obtain ⟨gs₁, gs₂, hsplit⟩ := List.append_of_mem hmemg
    have hnd : ((buildGroups rows).map Prod.fst).Nodup :=
      foldGrp_keys_nodup (withIdx 0 rows) [] List.nodup_nil
    rw [hsplit] at hnd
    have hnd1 : (gs₁.map Prod.fst ++
        pyStrip r.fingerprint :: gs₂.map Prod.fst).Nodup := by
      simpa using hnd
    have hnd2 : pyStrip r.fingerprint ∉ gs₁.map Prod.fst ++ gs₂.map Prod.fst :=
      (List.nodup_cons.mp (List.nodup_middle.mp hnd1)).1
    have hkey1 : ∀ g ∈ gs₁, g.1 ≠ pyStrip r.fingerprint := by
      intro g hg he
      apply hnd2
      apply List.mem_append_left
      rw [← he]
      exact List.mem_map_of_mem Prod.fst hg
    have hkey2 : ∀ g ∈ gs₂, g.1 ≠ pyStrip r.fingerprint := by
      intro g hg he
      apply hnd2
      apply List.mem_append_right
      rw [← he]
      exact List.mem_map_of_mem Prod.fst hg
    have hsub1 : ∀ g ∈ gs₁, g ∈ buildGroups rows := by
      intro g hg; rw [hsplit]; exact List.mem_append_left _ hg
    have hsub2 : ∀ g ∈ gs₂, g ∈ buildGroups rows := by
      intro g hg; rw [hsplit]
      exact List.mem_append_right _ (List.mem_cons_of_mem _ hg)
    have h1 : (gs₁.foldl (fun acc g => applyGroup acc g.2) rows).get? i = some r := by
      rw [foldApply_untouched gs₁ rows i
        (fun g hg => group_not_touching rows i r hget g (hsub1 g hg) (hkey1 g hg))]
      exact hget
    have h2 := applyGroup_get (gs₁.foldl (fun acc g => applyGroup acc g.2) rows)
      ((withIdx 0 rows).filter
        fun p => pyStrip p.2.fingerprint = pyStrip r.fingerprint) i r h1
    show ((buildGroups rows).foldl (fun acc g => applyGroup acc g.2) rows).get? i = _
    rw [hsplit, List.foldl_append, List.foldl_cons]
    show (gs₂.foldl (fun acc g => applyGroup acc g.2)
        (applyGroup (gs₁.foldl (fun acc g => applyGroup acc g.2) rows)
          ((withIdx 0 rows).filter
            fun p => pyStrip p.2.fingerprint = pyStrip r.fingerprint))).get? i = _
    rw [foldApply_untouched gs₂ _ i
      (fun g hg => group_not_touching rows i r hget g (hsub2 g hg) (hkey2 g hg))]
    rw [h2, if_neg hfp]
    have hff : firstFinal rows (pyStrip r.fingerprint) =
        (((withIdx 0 rows).filter
            fun p => pyStrip p.2.fingerprint = pyStrip r.fingerprint).filter
          fun it => it.2.version = "final").head?.map Prod.snd := by
      show ((rows.filter fun s => pyStrip s.fingerprint = pyStrip r.fingerprint).filter
          fun s => s.version = "final").head? = _
      rw [← headOptMap]
      congr 1
      rw [filterFilter, filterFilter]
      exact (withIdx_filter_map_snd rows
        (fun s => decide (pyStrip s.fingerprint = pyStrip r.fingerprint) &&
          decide (s.version = "final")) 0).symm
    have hany_pos : r.version = "preprint" →
        ((((withIdx 0 rows).filter
            fun p => pyStrip p.2.fingerprint = pyStrip r.fingerprint).filter
          fun it => it.2.version = "preprint").any fun it => it.1 == i) = true := by
      intro hv
      apply List.any_eq_true.mpr
      refine ⟨(i, r), ?_, by simp⟩
      apply List.mem_filter.mpr
      exact ⟨hin, by simpa using hv⟩
    have hany_neg : ¬ r.version = "preprint" →
        ((((withIdx 0 rows).filter
            fun p => pyStrip p.2.fingerprint = pyStrip r.fingerprint).filter
          fun it => it.2.version = "preprint").any fun it => it.1 == i) = false := by
      intro hv
      cases hb : ((((withIdx 0 rows).filter
          fun p => pyStrip p.2.fingerprint = pyStrip r.fingerprint).filter
        fun it => it.2.version = "preprint").any fun it => it.1 == i) with
      | false => rfl
      | true =>
        exfalso
        obtain ⟨it, hmemP, hbeq⟩ := List.any_eq_true.mp hb
        have hmemL := List.mem_filter.mp hmemP
        have hmemW := List.mem_filter.mp hmemL.1
        have hpair : (it.1, it.2) ∈ withIdx 0 rows := hmemW.1
        obtain ⟨m, hm, hgm⟩ := (withIdx_mem rows 0 it.1 it.2).mp hpair
        have hit1 : it.1 = i := by simpa using hbeq
        have hmi : m = i := by omega
        rw [hmi, hget] at hgm
        have hr : r = it.2 := by injection hgm
        have hver : it.2.version = "preprint" := of_decide_eq_true hmemL.2
        rw [← hr] at hver
        exact hv hver
    cases hF : (((withIdx 0 rows).filter
        fun p => pyStrip p.2.fingerprint = pyStrip r.fingerprint).filter
      fun it => it.2.version = "final").head? with
    | none =>
      rw [hff, hF]
      rfl
    | some f =>
      rw [hff, hF]
      by_cases hv : r.version = "preprint"
      · rw [hany_pos hv]
        simp [hv]
      · rw [hany_neg hv]
        simp [hv]

/-- Table exhibiting the whitespace counterexample: the first final row's
`primary_id` carries surrounding spaces. -/
def c2CexRows : List PRow :=
  [{ fingerprint := "f", version := "preprint", primary_id := "fp:f",
     replaced_by := "" },
   { fingerprint := "f", version := "final", primary_id := " doi:x ",
     replaced_by := "" }]

/-- C2 counterexample: the preprint row's `replaced_by` is the *stripped*
`primary_id` `"doi:x"`, not the first final row's stored `primary_id`
`" doi:x "`. -/
theorem preprint_replacement_claim_cex :
    ((applyPreprintReplacements c2CexRows).get? 0).map PRow.replaced_by
        = some "doi:x" ∧
      (c2CexRows.get? 1).map PRow.primary_id = some " doi:x " ∧
      ("doi:x" : String) ≠ " doi:x " := by
  decide

/-- Table mirroring the repository's own preprint-replacement test. -/
def c2TestRows : List PRow :=
  [{ fingerprint := "t|smith|2020", version := "final",
     primary_id := "doi:10.1/xyz", replaced_by := "" },
   { fingerprint := "t|smith|2020", version := "preprint",
     primary_id := "doi:10.2/abc", replaced_by := "" }]

/-- The preprint row of `c2TestRows`. -/
def c2TestPre : PRow :=
  { fingerprint := "t|smith|2020", version := "preprint",
    primary_id := "doi:10.2/abc", replaced_by := "" }

/-- C2 witness: the characterization applied to the repository test table. -/
theorem preprint_replacement_characterization_witness :
    c2TestRows.get? 1 = some c2TestPre ∧
      (applyPreprintReplacements c2TestRows).get? 1 =
        some (if pyStrip c2TestPre.fingerprint = "" then c2TestPre
          else match firstFinal c2TestRows (pyStrip c2TestPre.fingerprint) with
            | none => c2TestPre
            | some f =>
              if c2TestPre.version = "preprint" then
                { c2TestPre with replaced_by := pyStrip f.primary_id }
              else c2TestPre) :=
  ⟨rfl, preprint_replacement_characterization c2TestRows 1 c2TestPre rfl⟩

end Motherload
